import Mathlib

/-!
Verification of the NIH grant-analysis pipeline (category_handler.py,
analysis_pipeline.py) against its natural-language specification.

The Python code is shallowly embedded: the taxonomy configuration becomes
typed structures, pandas DataFrames become association lists of named
columns, numeric amounts become rationals, and embedding vectors become
lists of reals.  Python string operations (`str.lower`, the `in` substring
test, `str()` coercion of missing values) are modelled on `String` /
`List Char`.  Library calls made by the code are modelled from their
documented behaviour: `sklearn.metrics.pairwise.cosine_similarity`
normalises each row (substituting 1 for a zero norm) and takes pairwise
dot products, and rejects inputs with zero samples; `numpy.ndarray.max`
fails on an empty array; pandas `round(2)` rounds half to even;
`pandas.groupby` drops null group keys; `DataFrame.apply` over zero rows
returns an empty float64 Series, and indexing a frame with a non-boolean
Series selects columns by label instead of masking rows, so a zero-row
classification column makes the per-area breakdown raise
`KeyError('org_state')`.
-/

namespace NIH

/-! ## Python string primitives -/

/-- Does the needle occur at the head of the haystack (character lists)? -/
def strStarts : List Char → List Char → Bool
  | [], _ => true
  | _ :: _, [] => false
  | a :: as, b :: bs => a == b && strStarts as bs

/-- Does the needle occur contiguously anywhere in the haystack?  Models the
Python substring test `needle in haystack` on character lists. -/
def strOccurs (needle : List Char) : List Char → Bool
  | [] => needle.isEmpty
  | b :: bs => strStarts needle (b :: bs) || strOccurs needle bs

/-- Python `kw in text` for strings. -/
def pyIn (kw text : String) : Bool := strOccurs kw.data text.data

/-- Python `str.lower()`.  The configured keywords and grant texts are ASCII,
where `Char.toLower` agrees with Python. -/
def pyLower (s : String) : String := ⟨s.data.map Char.toLower⟩

/-- Python `str(x)` applied to a text field of a pandas row.  A present value
is returned unchanged; a missing value is the Python object `None`, whose
`str()` is the four-character text `"None"` (a float `nan` would likewise
render as `"nan"`, not as the empty string). -/
def pyStr : Option String → String
  | some s => s
  | none => "None"

/-! ## Taxonomy configuration (category_handler.py)

The dynamic dictionary shape that `validate_config` checks at runtime
(presence of the four sections, `keywords` a list, `subtypes` a dict) is
enforced here by the types, so every `GrantConfig` value is a validated
configuration. -/

/-- One `Research_Areas` entry: its own keyword list plus named subtypes. -/
structure AreaDetails where
  keywords : List String
  subtypes : List (String × List String)

/-- One `Award_Size` bucket: the optional `min_amount` / `max_amount` keys. -/
structure AwardLimits where
  min_amount : Option ℚ
  max_amount : Option ℚ

/-- One `Technology_Platform` entry.  The sample configurations also carry a
`subtypes` map here, but the pipeline reads only `keywords`. -/
structure PlatformDetails where
  keywords : List String

/-- The full `GRANT_CATEGORIES` configuration.  Python dicts preserve
insertion order, so each section is an ordered association list. -/
structure GrantConfig where
  Research_Areas : List (String × AreaDetails)
  Award_Size : List (String × AwardLimits)
  Technology_Platform : List (String × PlatformDetails)
  Study_Design : List (String × List (String × List String))

/-! ## Award-size bucketing (category_handler.get_award_size_category) -/

/-- Inner loop of `get_award_size_category`: for each bucket in declaration
order, `if 'max_amount' in limits and amount <= limits['max_amount']: return
category elif 'min_amount' in limits and amount > limits['min_amount']:
return category`; past the last bucket, `return 'Large'`. -/
def awardSizeLoop (amount : ℚ) : List (String × AwardLimits) → String
  | [] => "Large"
  | (category, limits) :: rest =>
    match limits.max_amount, limits.min_amount with
    | some mx, some mn =>
      if amount ≤ mx then category
      else if mn < amount then category
      else awardSizeLoop amount rest
    | some mx, none =>
      if amount ≤ mx then category else awardSizeLoop amount rest
    | none, some mn =>
      if mn < amount then category else awardSizeLoop amount rest
    | none, none => awardSizeLoop amount rest

/-- `get_award_size_category`: a missing amount (`pd.isna`) is `'Unknown'`;
otherwise the buckets are scanned in declaration order. -/
def get_award_size_category (buckets : List (String × AwardLimits)) :
    Option ℚ → String
  | none => "Unknown"
  | some amount => awardSizeLoop amount buckets

/-- The `Award_Size` section of `sample_categories_biomedical.GRANT_CATEGORIES`. -/
def awardSizeBiomedical : List (String × AwardLimits) :=
  [("Small", ⟨none, some 250000⟩),
   ("Medium", ⟨some 250000, some 1000000⟩),
   ("Large", ⟨some 1000000, none⟩)]

/-- C1.  Award-size bucketing, evaluated on the biomedical bucket
configuration at the five inputs named by the claim.  The first three and the
missing-amount case behave as the claim states, but amount 1500000 is
assigned to `'Medium'`, not `'Large'`: when Medium's `max_amount` test fails,
the `elif` still matches its `min_amount` (1500000 > 250000) and returns
Medium before the loop ever reaches the Large bucket — so `'Large'` is
unreachable for every numeric amount under this configuration, contradicting
the code's own fallback comment (`'Large'  # Default for amounts above all
thresholds`). -/
theorem C1_award_size_eval :
    get_award_size_category awardSizeBiomedical (some 250000) = "Small" ∧
    get_award_size_category awardSizeBiomedical (some 250001) = "Medium" ∧
    get_award_size_category awardSizeBiomedical (some 1000000) = "Medium" ∧
    get_award_size_category awardSizeBiomedical (some 1500000) = "Medium" ∧
    get_award_size_category awardSizeBiomedical none = "Unknown" := by
  refine ⟨?_, ?_, ?_, ?_, ?_⟩ <;> decide

/-! ## Keyword matching (category_handler.check_text_for_category) -/

/-- Python `any(kw in text for kw in kws)`.  The keywords are tested as
written in the configuration (the code lowers only the text). -/
def containsAnyKw (text : String) (kws : List String) : Bool :=
  kws.any (fun kw => pyIn kw text)

/-- Body of `check_text_for_category` once the area has been looked up:
lower the text, return True on a main-keyword hit, then (only when
`include_subtypes`) on any subtype-keyword hit, else False. -/
def check_text_raw (area : AreaDetails) (text : String)
    (include_subtypes : Bool) : Bool :=
  let t := pyLower text
  containsAnyKw t area.keywords ||
    (include_subtypes && area.subtypes.any (fun st => containsAnyKw t st.2))

/-- `check_text_for_category`: raises `ValueError(f"Unknown research area:
{area_name}")` when the area is not a key of `Research_Areas`. -/
def check_text_for_category (cfg : GrantConfig) (text : String)
    (area_name : String) (include_subtypes : Bool) : Except String Bool :=
  match List.lookup area_name cfg.Research_Areas with
  | none => .error ("Unknown research area: " ++ area_name)
  | some d => .ok (check_text_raw d text include_subtypes)

/-- `get_keywords_for_area`: the area's own keywords extended with every
subtype's keywords, deduplicated via `list(set(...))`.  Python's set leaves
the order unspecified; `List.dedup` fixes one order, and only membership and
duplicate-freeness are claimed. -/
def get_keywords_for_area (cfg : GrantConfig) (area : String) :
    Except String (List String) :=
  match List.lookup area cfg.Research_Areas with
  | none => .error ("Unknown research area: " ++ area)
  | some d => .ok ((d.keywords ++ d.subtypes.flatMap (fun st => st.2)).dedup)

/-! ## Category columns (category_handler.get_all_category_columns) -/

/-- `get_all_category_columns`: walk `Research_Areas` (area, then its
subtypes), then `Technology_Platform`, then `Study_Design`, appending the
derived column names in that order. -/
def get_all_category_columns (cfg : GrantConfig) : List String :=
  (cfg.Research_Areas.flatMap (fun a =>
    ("is_" ++ a.1) :: a.2.subtypes.map (fun st => "is_" ++ a.1 ++ "_" ++ st.1)))
  ++ cfg.Technology_Platform.map (fun p => "uses_" ++ p.1)
  ++ cfg.Study_Design.flatMap (fun dt =>
      dt.2.map (fun st => "study_design_" ++ dt.1 ++ "_" ++ st.1))

/-! ## Grant records and the classification table
(analysis_pipeline.process_regular_method)

A classification table is the pandas DataFrame `results`: an ordered list of
named boolean columns, one entry per input record.  `results[name] = series`
overwrites an existing column of that name in place and otherwise appends a
new column; `process_regular_method` performs one such assignment per derived
column, in source order. -/

/-- The fields of one grant row that the classifier and aggregator read.
Text fields and the region are nullable; a null award amount is `NaN`. -/
structure GrantRecord where
  project_title : Option String
  abstract_text : Option String
  award_amount : Option ℚ
  org_state : Option String

/-- Python `str(x['project_title']) + " " + str(x['abstract_text'])`, the
text the area-level columns are evaluated over. -/
def titleAbstractText (r : GrantRecord) : String :=
  pyStr r.project_title ++ " " ++ pyStr r.abstract_text

/-- One pandas column assignment `results[name] = col`: overwrite in place
when the name exists, else append. -/
def assignCol (tbl : List (String × List Bool)) (name : String)
    (col : List Bool) : List (String × List Bool) :=
  if tbl.any (fun p => p.1 == name) then
    tbl.map (fun p => if p.1 == name then (p.1, col) else p)
  else tbl ++ [(name, col)]

/-- The area-level column: `check_text_for_category(str(title) + " " +
str(abstract), area, include_subtypes=False)` per record.  The lookup inside
`check_text_for_category` always succeeds here because the area name comes
from iterating the same dict, so its successful branch is inlined. -/
def areaColumn (details : AreaDetails) (records : List GrantRecord) :
    List Bool :=
  records.map (fun r => check_text_raw details (titleAbstractText r) false)

/-- A subtype column: `any(kw in str(title).lower() or kw in
str(abstract).lower() for kw in keywords)` per record — the two text fields
are searched separately, not concatenated. -/
def subtypeColumn (kws : List String) (records : List GrantRecord) :
    List Bool :=
  records.map (fun r => kws.any (fun kw =>
    pyIn kw (pyLower (pyStr r.project_title)) ||
    pyIn kw (pyLower (pyStr r.abstract_text))))

/-- A technology-platform or study-design column: `any(kw in
str(abstract).lower() for kw in keywords)` per record — the abstract alone. -/
def abstractColumn (kws : List String) (records : List GrantRecord) :
    List Bool :=
  records.map (fun r => kws.any (fun kw =>
    pyIn kw (pyLower (pyStr r.abstract_text))))

/-- The sequence of column assignments `process_regular_method` performs, in
source order: per area its `is_<area>` column then its subtype columns, then
the platform columns, then the study-design columns. -/
def columnSpecs (cfg : GrantConfig) (records : List GrantRecord) :
    List (String × List Bool) :=
  (cfg.Research_Areas.flatMap (fun a =>
    ("is_" ++ a.1, areaColumn a.2 records)
      :: a.2.subtypes.map (fun st =>
        ("is_" ++ a.1 ++ "_" ++ st.1, subtypeColumn st.2 records))))
  ++ cfg.Technology_Platform.map (fun p =>
      ("uses_" ++ p.1, abstractColumn p.2.keywords records))
  ++ cfg.Study_Design.flatMap (fun dt =>
      dt.2.map (fun st =>
        ("study_design_" ++ dt.1 ++ "_" ++ st.1, abstractColumn st.2 records)))

/-- `process_regular_method`: perform the column assignments in order on the
initially empty DataFrame `results`. -/
def process_regular_method (cfg : GrantConfig) (records : List GrantRecord) :
    List (String × List Bool) :=
  (columnSpecs cfg records).foldl (fun t nc => assignCol t nc.1 nc.2) []

/-! ## Structural lemmas about the classification table -/

/-- Assigning a fresh column name appends it. -/
lemma assignCol_fresh (tbl : List (String × List Bool)) (name : String)
    (col : List Bool) (h : ∀ p ∈ tbl, p.1 ≠ name) :
    assignCol tbl name col = tbl ++ [(name, col)] := by
  unfold assignCol
  have hany : tbl.any (fun p => p.1 == name) = false := by
    simp only [List.any_eq_false]
    intro p hp
    simpa using h p hp
  simp [hany]

/-- When all the assigned column names are distinct, the assignment fold just
materialises the assignment list. -/
lemma foldl_assignCol_of_nodup (specs : List (String × List Bool))
    (acc : List (String × List Bool))
    (h : ((acc ++ specs).map Prod.fst).Nodup) :
    specs.foldl (fun t nc => assignCol t nc.1 nc.2) acc = acc ++ specs := by
  induction specs generalizing acc with
  | nil => simp
  | cons nc rest ih =>
    have hfresh : ∀ p ∈ acc, p.1 ≠ nc.1 := by
      intro p hp hcontra
      rw [List.map_append, List.nodup_append] at h
      have h1 : p.1 ∈ acc.map Prod.fst := List.mem_map_of_mem Prod.fst hp
      have h2 : p.1 ∈ (nc :: rest).map Prod.fst := by simp [hcontra]
      exact h.2.2 h1 h2
    have hstep : assignCol acc nc.1 nc.2 = acc ++ [nc] := by
      simpa using assignCol_fresh acc nc.1 nc.2 hfresh
    have hrec := ih (acc ++ [nc]) (by simpa using h)
    calc (nc :: rest).foldl (fun t p => assignCol t p.1 p.2) acc
        = rest.foldl (fun t p => assignCol t p.1 p.2) (acc ++ [nc]) := by
          simp [List.foldl_cons, hstep]
      _ = (acc ++ [nc]) ++ rest := hrec
      _ = acc ++ nc :: rest := by simp

/-- The names of the assignments made by `process_regular_method` are exactly
`get_all_category_columns`, in order. -/
lemma columnSpecs_names (cfg : GrantConfig) (records : List GrantRecord) :
    (columnSpecs cfg records).map Prod.fst = get_all_category_columns cfg := by
  unfold columnSpecs get_all_category_columns
  simp [List.map_flatMap, List.map_map, Function.comp_def]

/-- When the derived column names are pairwise distinct, the classification
table is the assignment list itself. -/
lemma process_regular_method_of_nodup (cfg : GrantConfig)
    (records : List GrantRecord)
    (h : (get_all_category_columns cfg).Nodup) :
    process_regular_method cfg records = columnSpecs cfg records := by
  unfold process_regular_method
  have := foldl_assignCol_of_nodup (columnSpecs cfg records) [] (by
    simpa [columnSpecs_names] using h)
  simpa using this

/-- Looking up a key of an association list with distinct keys returns its
unique value. -/
lemma lookup_of_nodup_of_mem {β : Type} (a : String) (b : β) :
    ∀ l : List (String × β), (l.map Prod.fst).Nodup → (a, b) ∈ l →
      List.lookup a l = some b := by
  intro l
  induction l with
  | nil => intro _ hmem; cases hmem
  | cons p rest ih =>
    intro h hmem
    have h' : (p.1 :: rest.map Prod.fst).Nodup := by
      simpa using h
    have hnd := List.nodup_cons.mp h'
    rcases List.mem_cons.mp hmem with hhead | htail
    · rw [← hhead]
      simp [List.lookup]
    · have ha : a ∈ rest.map Prod.fst := by
        simpa using List.mem_map_of_mem Prod.fst htail
      have hne : (a == p.1) = false := by
        refine beq_false_of_ne ?_
        intro hc
        exact hnd.1 (hc ▸ ha)
      obtain ⟨k, v⟩ := p
      simp only [List.lookup]
      simp only at hne
      rw [hne]
      exact ih hnd.2 htail

/-! ## Substring monotonicity under concatenation -/

lemma strStarts_append (n h1 h2 : List Char) (h : strStarts n h1 = true) :
    strStarts n (h1 ++ h2) = true := by
  induction n generalizing h1 with
  | nil => simp [strStarts]
  | cons a as ih =>
    cases h1 with
    | nil => simp [strStarts] at h
    | cons c cs =>
      simp only [strStarts, Bool.and_eq_true] at h ⊢
      exact ⟨h.1, ih cs h.2⟩

lemma strOccurs_nil_needle (h : List Char) : strOccurs [] h = true := by
  cases h <;> simp [strOccurs, strStarts]

lemma strOccurs_append_left (n h1 h2 : List Char)
    (h : strOccurs n h1 = true) : strOccurs n (h1 ++ h2) = true := by
  induction h1 with
  | nil =>
    simp only [strOccurs, List.isEmpty_eq_true] at h
    subst h
    exact strOccurs_nil_needle h2
  | cons b bs ih =>
    simp only [strOccurs, Bool.or_eq_true, List.cons_append] at h ⊢
    rcases h with h | h
    · exact Or.inl (by simpa [List.cons_append] using
        strStarts_append n (b :: bs) h2 h)
    · exact Or.inr (ih h)

lemma strOccurs_append_right (n h1 h2 : List Char)
    (h : strOccurs n h2 = true) : strOccurs n (h1 ++ h2) = true := by
  induction h1 with
  | nil => simpa using h
  | cons b bs ih =>
    simp only [List.cons_append, strOccurs, Bool.or_eq_true]
    exact Or.inr ih

lemma pyLower_append (s t : String) :
    pyLower (s ++ t) = pyLower s ++ pyLower t := by
  apply String.ext
  simp [pyLower, String.data_append]

lemma pyIn_append_left (kw s t : String) (h : pyIn kw s = true) :
    pyIn kw (s ++ t) = true := by
  unfold pyIn at h ⊢
  rw [String.data_append]
  exact strOccurs_append_left _ _ _ h

lemma pyIn_append_right (kw s t : String) (h : pyIn kw t = true) :
    pyIn kw (s ++ t) = true := by
  unfold pyIn at h ⊢
  rw [String.data_append]
  exact strOccurs_append_right _ _ _ h

/-- A keyword occurring in the lowered title occurs in the lowered
title-plus-abstract concatenation. -/
lemma pyIn_concat_of_title (kw : String) (r : GrantRecord)
    (h : pyIn kw (pyLower (pyStr r.project_title)) = true) :
    pyIn kw (pyLower (titleAbstractText r)) = true := by
  unfold titleAbstractText
  rw [pyLower_append, pyLower_append]
  exact pyIn_append_left _ _ _ (pyIn_append_left _ _ _ h)

/-- A keyword occurring in the lowered abstract occurs in the lowered
title-plus-abstract concatenation. -/
lemma pyIn_concat_of_abstract (kw : String) (r : GrantRecord)
    (h : pyIn kw (pyLower (pyStr r.abstract_text)) = true) :
    pyIn kw (pyLower (titleAbstractText r)) = true := by
  unfold titleAbstractText
  rw [pyLower_append]
  exact pyIn_append_right _ _ _ h

/-! ## Sample configuration fragments used as concrete inputs -/

/-- The `Genetics` entry of `sample_categories_biomedical.GRANT_CATEGORIES`. -/
def geneticsDetails : AreaDetails :=
  ⟨["genetic", "genomic", "dna", "rna", "chromosome", "mutation"],
   [("Gene_Therapy",
      ["gene therapy", "gene editing", "crispr", "viral vector",
       "gene delivery"]),
    ("Rare_Diseases",
      ["rare disease", "genetic disorder", "inherited disease",
       "orphan disease"]),
    ("Population_Genetics",
      ["population genetics", "genetic epidemiology", "genetic variation",
       "polymorphism"])]⟩

/-- A validated configuration holding the biomedical `Genetics` research area
and the biomedical award-size buckets. -/
def cfgGenetics : GrantConfig :=
  ⟨[("Genetics", geneticsDetails)], awardSizeBiomedical, [], []⟩

/-- A validated configuration whose derived column names collide: area `A`
with subtype `B` and area `A_B` both derive the column name `is_A_B`. -/
def cfgClash : GrantConfig :=
  ⟨[("A", ⟨[], [("B", [])]⟩), ("A_B", ⟨[], []⟩)], [], [], []⟩

/-! ## C7: column list determinism and table layout -/

/-- C7 counterexample.  On the validated configuration `cfgClash` the
derived names collide: `get_all_category_columns` lists `is_A_B` twice, but
the second pandas assignment overwrites the first column in place, so the
classification table does not have the listed column multiset and order. -/
theorem C7_counterexample :
    (process_regular_method cfgClash []).map Prod.fst ≠
      get_all_category_columns cfgClash := by
  decide

/-- C7 (amended: the derived column names must be pairwise distinct, as they
are in both shipped sample configurations).  `get_all_category_columns` is a
pure function of the configuration, hence deterministic across calls, and
walks areas (area column, then that area's subtype columns), platforms, then
study designs in declaration order; under distinctness the classification
table produced by `process_regular_method` has exactly these columns in
exactly this order. -/
theorem C7_columns_match (cfg : GrantConfig) (records : List GrantRecord)
    (h : (get_all_category_columns cfg).Nodup) :
    (process_regular_method cfg records).map Prod.fst =
      get_all_category_columns cfg := by
  rw [process_regular_method_of_nodup cfg records h, columnSpecs_names]

/-- C7 witness: the Genetics-only configuration has distinct column names and
its classification table over no records carries exactly those columns. -/
theorem C7_columns_match_witness :
    (get_all_category_columns cfgGenetics).Nodup ∧
    (process_regular_method cfgGenetics []).map Prod.fst =
      get_all_category_columns cfgGenetics :=
  ⟨by decide, C7_columns_match cfgGenetics [] (by decide)⟩

/-! ## C2: area columns versus subtype columns -/

/-- A record whose abstract contains the subtype-specific keyword `crispr`
(from `Genetics.Gene_Therapy`) but none of the `Genetics` area's own
keywords. -/
def recordCrispr : GrantRecord :=
  ⟨some "Unrelated", some "uses crispr technology", none, none⟩

/-- C2 counterexample.  `recordCrispr` contains the subtype keyword `crispr`,
so the claim asserts both `is_Genetics` and `is_Genetics_Gene_Therapy` are
true; but `process_regular_method` builds `is_<area>` with
`include_subtypes=False`, testing only the area's own keywords, so
`is_Genetics` is false while `is_Genetics_Gene_Therapy` is true. -/
theorem C2_counterexample :
    pyIn "crispr" (pyLower (pyStr recordCrispr.abstract_text)) = true ∧
    List.lookup "is_Genetics_Gene_Therapy"
        (process_regular_method cfgGenetics [recordCrispr]) = some [true] ∧
    List.lookup "is_Genetics"
        (process_regular_method cfgGenetics [recordCrispr]) = some [false] :=
  ⟨by decide, by decide, by decide⟩

/-- C2 (amended).  The area-level column `is_<area>` tests only the area's
own keyword list against the lowered title-plus-abstract concatenation (the
code passes `include_subtypes=False`), so a subtype-specific keyword makes
`is_<area>_<subtype>` true without necessarily making `is_<area>` true; a
record containing none of the listed keywords (own or any subtype's) gets
false for both columns. -/
theorem C2_area_subtype_semantics (cfg : GrantConfig)
    (records : List GrantRecord)
    (h : (get_all_category_columns cfg).Nodup)
    (area : String) (details : AreaDetails)
    (ha : (area, details) ∈ cfg.Research_Areas)
    (st : String) (kws : List String) (hs : (st, kws) ∈ details.subtypes) :
    List.lookup ("is_" ++ area) (process_regular_method cfg records) =
      some (areaColumn details records) ∧
    List.lookup ("is_" ++ area ++ "_" ++ st)
        (process_regular_method cfg records) =
      some (subtypeColumn kws records) ∧
    areaColumn details records =
      records.map (fun r =>
        containsAnyKw (pyLower (titleAbstractText r)) details.keywords) ∧
    ∀ r : GrantRecord,
      (∀ kw ∈ details.keywords ++ details.subtypes.flatMap (fun p => p.2),
        pyIn kw (pyLower (titleAbstractText r)) = false) →
      containsAnyKw (pyLower (titleAbstractText r)) details.keywords = false ∧
      kws.any (fun kw =>
        pyIn kw (pyLower (pyStr r.project_title)) ||
        pyIn kw (pyLower (pyStr r.abstract_text))) = false := by
  have hnodup : ((columnSpecs cfg records).map Prod.fst).Nodup := by
    rw [columnSpecs_names]; exact h
  have htbl := process_regular_method_of_nodup cfg records h
  refine ⟨?_, ?_, ?_, ?_⟩
  · rw [htbl]
    apply lookup_of_nodup_of_mem _ _ _ hnodup
    unfold columnSpecs
    refine List.mem_append_left _ (List.mem_append_left _ ?_)
    refine List.mem_flatMap.mpr ⟨(area, details), ha, ?_⟩
    exact List.mem_cons_self _ _
  · rw [htbl]
    apply lookup_of_nodup_of_mem _ _ _ hnodup
    unfold columnSpecs
    refine List.mem_append_left _ (List.mem_append_left _ ?_)
    refine List.mem_flatMap.mpr ⟨(area, details), ha, ?_⟩
    refine List.mem_cons_of_mem _ ?_
    exact List.mem_map.mpr ⟨(st, kws), hs, rfl⟩
  · simp [areaColumn, check_text_raw]
  · intro r hnone
    constructor
    · simp only [containsAnyKw, List.any_eq_false]
      intro kw hkw
      simp [hnone kw (List.mem_append_left _ hkw)]
    · simp only [List.any_eq_false]
      intro kw hkw
      have hmem : kw ∈ details.keywords ++
          details.subtypes.flatMap (fun p => p.2) :=
        List.mem_append_right _
          (List.mem_flatMap.mpr ⟨(st, kws), hs, hkw⟩)
      have habs := hnone kw hmem
      have h1 : pyIn kw (pyLower (pyStr r.project_title)) = false := by
        cases hval : pyIn kw (pyLower (pyStr r.project_title)) with
        | false => rfl
        | true => rw [pyIn_concat_of_title kw r hval] at habs; cases habs
      have h2 : pyIn kw (pyLower (pyStr r.abstract_text)) = false := by
        cases hval : pyIn kw (pyLower (pyStr r.abstract_text)) with
        | false => rfl
        | true => rw [pyIn_concat_of_abstract kw r hval] at habs; cases habs
      simp [h1, h2]

/-- C2 witness: on `cfgGenetics` and `recordCrispr`, the amended theorem
pins the two Genetics columns to their per-field evaluations. -/
theorem C2_area_subtype_semantics_witness :
    List.lookup ("is_" ++ "Genetics")
        (process_regular_method cfgGenetics [recordCrispr]) =
      some (areaColumn geneticsDetails [recordCrispr]) ∧
    List.lookup ("is_" ++ "Genetics" ++ "_" ++ "Gene_Therapy")
        (process_regular_method cfgGenetics [recordCrispr]) =
      some (subtypeColumn
        ["gene therapy", "gene editing", "crispr", "viral vector",
         "gene delivery"] [recordCrispr]) :=
  ⟨(C2_area_subtype_semantics cfgGenetics [recordCrispr] (by decide)
      "Genetics" geneticsDetails (by simp [cfgGenetics])
      "Gene_Therapy"
      ["gene therapy", "gene editing", "crispr", "viral vector",
       "gene delivery"] (by simp [geneticsDetails])).1,
   (C2_area_subtype_semantics cfgGenetics [recordCrispr] (by decide)
      "Genetics" geneticsDetails (by simp [cfgGenetics])
      "Gene_Therapy"
      ["gene therapy", "gene editing", "crispr", "viral vector",
       "gene delivery"] (by simp [geneticsDetails])).2.1⟩

/-! ## C6: which text each column family is evaluated over -/

/-- The `Molecular_Biology` keywords of the biomedical `Technology_Platform`
section. -/
def molecularBiologyDetails : PlatformDetails :=
  ⟨["pcr", "sequencing", "cloning", "molecular biology", "gene expression"]⟩

/-- The `Study_Type` entry of the biomedical `Study_Design` section. -/
def studyTypeDesign : List (String × List String) :=
  [("Basic_Research", ["basic science", "fundamental research"]),
   ("Translational", ["translational", "bench to bedside"]),
   ("Clinical", ["clinical study", "patient study"])]

/-- A validated configuration with one research area, one technology
platform and one study-design type, all drawn from the biomedical sample. -/
def cfgBio : GrantConfig :=
  ⟨[("Genetics", geneticsDetails)], awardSizeBiomedical,
   [("Molecular_Biology", molecularBiologyDetails)],
   [("Study_Type", studyTypeDesign)]⟩

/-- A record whose lowered title-plus-abstract concatenation contains the
subtype keyword `gene therapy` spanning the title/abstract boundary, while
neither field contains it alone. -/
def recordSplitKw : GrantRecord :=
  ⟨some "Transformative gene", some "therapy trial", none, none⟩

/-- C6 counterexample.  The claim says subtype columns are evaluated over
the concatenation of title and abstract; on `recordSplitKw` the keyword
`gene therapy` occurs in the lowered concatenation, yet
`is_Genetics_Gene_Therapy` is false, because the code tests each subtype
keyword against the title and the abstract separately. -/
theorem C6_counterexample :
    pyIn "gene therapy" (pyLower (titleAbstractText recordSplitKw)) = true ∧
    List.lookup "is_Genetics_Gene_Therapy"
        (process_regular_method cfgGenetics [recordSplitKw]) = some [false] :=
  ⟨by decide, by decide⟩

/-- C6 (amended).  Area columns are evaluated over the concatenation
`title + " " + abstract`; subtype columns over the title and the abstract
separately (true iff some subtype keyword occurs in either field on its
own); technology-platform and study-design columns over the abstract alone,
so a keyword present only in the title never makes them true (the last
conjunct: these columns agree on any two records with equal abstracts,
whatever their titles). -/
theorem C6_text_asymmetry (cfg : GrantConfig) (records : List GrantRecord)
    (h : (get_all_category_columns cfg).Nodup)
    (area : String) (details : AreaDetails)
    (ha : (area, details) ∈ cfg.Research_Areas)
    (st : String) (kws : List String) (hs : (st, kws) ∈ details.subtypes)
    (plat : String) (pdetails : PlatformDetails)
    (hp : (plat, pdetails) ∈ cfg.Technology_Platform)
    (dt : String) (subs : List (String × List String))
    (hd : (dt, subs) ∈ cfg.Study_Design)
    (dst : String) (dkws : List String) (hdst : (dst, dkws) ∈ subs) :
    List.lookup ("is_" ++ area) (process_regular_method cfg records) =
      some (records.map (fun r =>
        containsAnyKw (pyLower (titleAbstractText r)) details.keywords)) ∧
    List.lookup ("is_" ++ area ++ "_" ++ st)
        (process_regular_method cfg records) =
      some (subtypeColumn kws records) ∧
    List.lookup ("uses_" ++ plat) (process_regular_method cfg records) =
      some (abstractColumn pdetails.keywords records) ∧
    List.lookup ("study_design_" ++ dt ++ "_" ++ dst)
        (process_regular_method cfg records) =
      some (abstractColumn dkws records) ∧
    ∀ (kl : List String) (r r' : GrantRecord),
      r.abstract_text = r'.abstract_text →
      abstractColumn kl [r] = abstractColumn kl [r'] := by
  have hnodup : ((columnSpecs cfg records).map Prod.fst).Nodup := by
    rw [columnSpecs_names]; exact h
  have htbl := process_regular_method_of_nodup cfg records h
  refine ⟨?_, ?_, ?_, ?_, ?_⟩
  · rw [htbl]
    have harea : List.lookup ("is_" ++ area) (columnSpecs cfg records) =
        some (areaColumn details records) := by
      apply lookup_of_nodup_of_mem _ _ _ hnodup
      unfold columnSpecs
      refine List.mem_append_left _ (List.mem_append_left _ ?_)
      refine List.mem_flatMap.mpr ⟨(area, details), ha, ?_⟩
      exact List.mem_cons_self _ _
    rw [harea]
    simp [areaColumn, check_text_raw]
  · rw [htbl]
    apply lookup_of_nodup_of_mem _ _ _ hnodup
    unfold columnSpecs
    refine List.mem_append_left _ (List.mem_append_left _ ?_)
    refine List.mem_flatMap.mpr ⟨(area, details), ha, ?_⟩
    refine List.mem_cons_of_mem _ ?_
    exact List.mem_map.mpr ⟨(st, kws), hs, rfl⟩
  · rw [htbl]
    apply lookup_of_nodup_of_mem _ _ _ hnodup
    unfold columnSpecs
    refine List.mem_append_left _ (List.mem_append_right _ ?_)
    exact List.mem_map.mpr ⟨(plat, pdetails), hp, rfl⟩
  · rw [htbl]
    apply lookup_of_nodup_of_mem _ _ _ hnodup
    unfold columnSpecs
    refine List.mem_append_right _ ?_
    refine List.mem_flatMap.mpr ⟨(dt, subs), hd, ?_⟩
    exact List.mem_map.mpr ⟨(dst, dkws), hdst, rfl⟩
  · intro kl r r' habs
    simp [abstractColumn, habs]

/-- C6 witness: on `cfgBio` and a record whose title alone carries the
platform keyword `pcr` and the design keyword `translational`, the platform
and study-design columns are pinned to abstract-only evaluations. -/
theorem C6_text_asymmetry_witness :
    List.lookup ("uses_" ++ "Molecular_Biology")
        (process_regular_method cfgBio
          [⟨some "PCR translational study", some "irrelevant text", none,
            none⟩]) =
      some (abstractColumn molecularBiologyDetails.keywords
        [⟨some "PCR translational study", some "irrelevant text", none,
          none⟩]) ∧
    List.lookup ("study_design_" ++ "Study_Type" ++ "_" ++ "Translational")
        (process_regular_method cfgBio
          [⟨some "PCR translational study", some "irrelevant text", none,
            none⟩]) =
      some (abstractColumn ["translational", "bench to bedside"]
        [⟨some "PCR translational study", some "irrelevant text", none,
          none⟩]) :=
  ⟨(C6_text_asymmetry cfgBio _ (by decide)
      "Genetics" geneticsDetails (by simp [cfgBio])
      "Gene_Therapy"
      ["gene therapy", "gene editing", "crispr", "viral vector",
       "gene delivery"] (by simp [geneticsDetails])
      "Molecular_Biology" molecularBiologyDetails (by simp [cfgBio])
      "Study_Type" studyTypeDesign (by simp [cfgBio])
      "Translational" ["translational", "bench to bedside"]
      (by simp [studyTypeDesign])).2.2.1,
   (C6_text_asymmetry cfgBio _ (by decide)
      "Genetics" geneticsDetails (by simp [cfgBio])
      "Gene_Therapy"
      ["gene therapy", "gene editing", "crispr", "viral vector",
       "gene delivery"] (by simp [geneticsDetails])
      "Molecular_Biology" molecularBiologyDetails (by simp [cfgBio])
      "Study_Type" studyTypeDesign (by simp [cfgBio])
      "Translational" ["translational", "bench to bedside"]
      (by simp [studyTypeDesign])).2.2.2.1⟩

/-! ## C4: missing text fields -/

/-- Replace each missing text field by its Python `str()` rendering. -/
def fillNoneText (r : GrantRecord) : GrantRecord :=
  ⟨some (pyStr r.project_title), some (pyStr r.abstract_text),
   r.award_amount, r.org_state⟩

/-- A validated single-area configuration whose keyword `one` is a substring
of `none`, the lowering of Python's `str(None)`. -/
def cfgOne : GrantConfig :=
  ⟨[("Demo", ⟨["one"], []⟩)], [], [], []⟩

/-- C4 counterexample.  Under `cfgOne`, the record with a null title and
empty abstract classifies as `is_Demo = true` — `str(None)` is the text
`"None"`, whose lowering contains the keyword `one` — whereas the same
record with the null replaced by the empty string classifies false.  So a
null field is not treated as an empty string and can by itself cause a
keyword match. -/
theorem C4_counterexample :
    List.lookup "is_Demo"
        (process_regular_method cfgOne [⟨none, some "", none, none⟩]) =
      some [true] ∧
    List.lookup "is_Demo"
        (process_regular_method cfgOne [⟨some "", some "", none, none⟩]) =
      some [false] :=
  ⟨by decide, by decide⟩

/-- C4 (amended).  Classification never aborts on a missing text field: the
code coerces every field with `str()`, so a null title or abstract is
processed as the literal text `"None"` (a pandas `NaN` would read `"nan"`),
and the record's classification booleans equal those of the same record
with each null field replaced by that literal string — not by the empty
string, so a null field can by itself cause a keyword match exactly when
some keyword occurs in the lowered rendering. -/
theorem C4_null_text_fields (cfg : GrantConfig)
    (records : List GrantRecord) :
    process_regular_method cfg (records.map fillNoneText) =
      process_regular_method cfg records := by
  have hspecs : columnSpecs cfg (records.map fillNoneText) =
      columnSpecs cfg records := by
    have h1 : ∀ r : GrantRecord,
        pyStr (fillNoneText r).project_title = pyStr r.project_title := by
      intro r; rfl
    have h2 : ∀ r : GrantRecord,
        pyStr (fillNoneText r).abstract_text = pyStr r.abstract_text := by
      intro r; rfl
    unfold columnSpecs areaColumn subtypeColumn abstractColumn
      titleAbstractText
    simp only [List.map_map, Function.comp_def, h1, h2]
  unfold process_regular_method
  rw [hspecs]

/-! ## C9: keyword union for a research area -/

/-- C9.  `get_keywords_for_area` fails with `ValueError` naming the area
when the name is not a `Research_Areas` key, and otherwise returns a
duplicate-free list containing exactly the union of the area's own keywords
and every subtype's keywords.  The function reads the configuration without
modifying it (the Python code copies the keyword list before extending). -/
theorem C9_keywords_for_area (cfg : GrantConfig) (area : String) :
    (List.lookup area cfg.Research_Areas = none →
      get_keywords_for_area cfg area =
        .error ("Unknown research area: " ++ area)) ∧
    ∀ d : AreaDetails, List.lookup area cfg.Research_Areas = some d →
      ∃ l, get_keywords_for_area cfg area = .ok l ∧ l.Nodup ∧
        ∀ s, s ∈ l ↔ (s ∈ d.keywords ∨ ∃ p ∈ d.subtypes, s ∈ p.2) := by
  constructor
  · intro hnone
    unfold get_keywords_for_area
    rw [hnone]
  · intro d hd
    refine ⟨(d.keywords ++ d.subtypes.flatMap (fun st => st.2)).dedup,
      ?_, List.nodup_dedup _, ?_⟩
    · unfold get_keywords_for_area
      rw [hd]
    · intro s
      rw [List.mem_dedup, List.mem_append, List.mem_flatMap]

/-- C9 witness: on the Genetics-only configuration, querying the absent area
`Oncology` yields the naming error, and querying `Genetics` yields the
deduplicated union. -/
theorem C9_keywords_for_area_witness :
    get_keywords_for_area cfgGenetics "Oncology" =
      .error ("Unknown research area: " ++ "Oncology") ∧
    ∃ l, get_keywords_for_area cfgGenetics "Genetics" = .ok l ∧ l.Nodup ∧
      ∀ s, s ∈ l ↔ (s ∈ geneticsDetails.keywords ∨
        ∃ p ∈ geneticsDetails.subtypes, s ∈ p.2) :=
  ⟨(C9_keywords_for_area cfgGenetics "Oncology").1 (by rfl),
   (C9_keywords_for_area cfgGenetics "Genetics").2 geneticsDetails (by rfl)⟩

/-! ## Cosine similarity (analysis_pipeline.calculate_similarities)

The code calls `sklearn.metrics.pairwise.cosine_similarity`, which
L2-normalises each row — substituting 1 for a zero norm — and takes all
pairwise dot products, after `check_array` validation that rejects an input
with zero samples.  Floating-point vectors are modelled as lists of real
numbers. -/

/-- Dot product of two rows. -/
def dotList (a b : List ℝ) : ℝ := (List.zipWith (fun x y => x * y) a b).sum

/-- L2 norm of a row. -/
noncomputable def norm2 (v : List ℝ) : ℝ := Real.sqrt (dotList v v)

/-- The divisor sklearn's `normalize` uses: a zero norm is replaced by 1. -/
noncomputable def guardNorm (v : List ℝ) : ℝ :=
  if norm2 v = 0 then 1 else norm2 v

/-- Cosine similarity of two rows as sklearn computes it (dot product of the
guarded normalisations). -/
noncomputable def cosSim (a b : List ℝ) : ℝ :=
  dotList a b / (guardNorm a * guardNorm b)

/-- The dense pairwise similarity matrix. -/
noncomputable def simMatrix (vs : List (List ℝ)) : List (List ℝ) :=
  vs.map (fun a => vs.map (fun b => cosSim a b))

/-- `cosine_similarity(X)`: sklearn's `check_array` raises `ValueError`
(`Found array with 0 sample(s) ...`) on an input with no rows; otherwise the
dense matrix is returned. -/
noncomputable def cosine_similarity (vs : List (List ℝ)) :
    Except String (List (List ℝ)) :=
  if vs.length = 0 then .error "Found array with 0 sample(s)"
  else .ok (simMatrix vs)

/-- Entry `(i, j)` of a matrix stored as nested lists. -/
def entry (M : List (List ℝ)) (i j : ℕ) : ℝ := (M.getD i []).getD j 0

lemma dotList_comm (a b : List ℝ) : dotList a b = dotList b a := by
  unfold dotList
  rw [List.zipWith_comm_of_comm]
  intro x y
  exact mul_comm x y

lemma dotList_self_nonneg (v : List ℝ) : 0 ≤ dotList v v := by
  induction v with
  | nil => simp [dotList]
  | cons x xs ih =>
    have hx : (0:ℝ) ≤ x * x := mul_self_nonneg x
    simpa [dotList] using add_nonneg hx (by simpa [dotList] using ih)

lemma dotList_eq_zero_of_self_zero (a : List ℝ) (h : dotList a a = 0) :
    ∀ b : List ℝ, dotList a b = 0 := by
  induction a with
  | nil => intro b; simp [dotList]
  | cons x xs ih =>
    intro b
    have hx2 : (0:ℝ) ≤ x * x := mul_self_nonneg x
    have hxs : (0:ℝ) ≤ dotList xs xs := dotList_self_nonneg xs
    have hsum : x * x + dotList xs xs = 0 := by
      simpa [dotList] using h
    have hx0 : x = 0 := by
      have : x * x = 0 := by linarith
      exact mul_self_eq_zero.mp this
    have hxs0 : dotList xs xs = 0 := by linarith
    cases b with
    | nil => simp [dotList]
    | cons y ys =>
      have := ih hxs0 ys
      simp [dotList] at this ⊢
      simp [hx0, this]

lemma norm2_eq_zero_iff (v : List ℝ) :
    norm2 v = 0 ↔ dotList v v = 0 := by
  unfold norm2
  exact Real.sqrt_eq_zero (dotList_self_nonneg v)

lemma cosSim_comm (a b : List ℝ) : cosSim a b = cosSim b a := by
  unfold cosSim
  rw [dotList_comm, mul_comm]

lemma cosSim_self (a : List ℝ) (h : norm2 a ≠ 0) : cosSim a a = 1 := by
  unfold cosSim guardNorm
  rw [if_neg h]
  have hd : norm2 a * norm2 a = dotList a a := by
    unfold norm2
    exact Real.mul_self_sqrt (dotList_self_nonneg a)
  rw [hd]
  have hne : dotList a a ≠ 0 := fun hc => h ((norm2_eq_zero_iff a).mpr hc)
  exact div_self hne

lemma cosSim_zero_left (a b : List ℝ) (h : norm2 a = 0) : cosSim a b = 0 := by
  unfold cosSim
  rw [dotList_eq_zero_of_self_zero a ((norm2_eq_zero_iff a).mp h) b, zero_div]

lemma cosSim_zero_right (a b : List ℝ) (h : norm2 b = 0) :
    cosSim a b = 0 := by
  rw [cosSim_comm]
  exact cosSim_zero_left b a h

lemma entry_simMatrix (vs : List (List ℝ)) (i j : ℕ)
    (hi : i < vs.length) (hj : j < vs.length) :
    entry (simMatrix vs) i j = cosSim (vs.getD i []) (vs.getD j []) := by
  unfold entry simMatrix
  have h1 : (List.map (fun a => List.map (fun b => cosSim a b) vs) vs).getD
      i [] = List.map (fun b => cosSim (vs.getD i []) b) vs := by
    rw [List.getD_eq_getElem _ _ (by simpa using hi), List.getElem_map,
      List.getD_eq_getElem _ _ hi]
  rw [h1, List.getD_eq_getElem _ _ (by simpa using hj), List.getElem_map,
    List.getD_eq_getElem _ _ hj]

lemma cosine_similarity_ok (vs : List (List ℝ)) (M : List (List ℝ))
    (hM : cosine_similarity vs = .ok M) : M = simMatrix vs := by
  unfold cosine_similarity at hM
  split at hM
  · cases hM
  · exact (Except.ok.injEq _ _).mp hM |>.symm

/-- C5.  For any sequence of equal-length rows accepted by
`cosine_similarity`, the resulting matrix is symmetric, the diagonal entry
of every row with nonzero norm is exactly 1 (the real-number model of the
floating tolerance), and a zero-norm row has similarity 0 with every row,
itself included. -/
theorem C5_cosine_properties (vs : List (List ℝ)) (k : ℕ)
    (hlen : ∀ v ∈ vs, v.length = k)
    (M : List (List ℝ)) (hM : cosine_similarity vs = .ok M)
    (i j : ℕ) (hi : i < vs.length) (hj : j < vs.length) :
    entry M i j = entry M j i ∧
    (norm2 (vs.getD i []) ≠ 0 → entry M i i = 1) ∧
    (norm2 (vs.getD i []) = 0 → entry M i j = 0 ∧ entry M j i = 0) := by
  have hMs := cosine_similarity_ok vs M hM
  subst hMs
  refine ⟨?_, ?_, ?_⟩
  · rw [entry_simMatrix vs i j hi hj, entry_simMatrix vs j i hj hi]
    exact cosSim_comm _ _
  · intro hnz
    rw [entry_simMatrix vs i i hi hi]
    exact cosSim_self _ hnz
  · intro hz
    constructor
    · rw [entry_simMatrix vs i j hi hj]
      exact cosSim_zero_left _ _ hz
    · rw [entry_simMatrix vs j i hj hi]
      exact cosSim_zero_right _ _ hz

/-- C5 witness: on the two rows `[1, 0]` (unit norm) and `[0, 0]` (zero
norm), the diagonal entry of the first row is 1 and the zero row has
similarity 0 with both rows. -/
theorem C5_cosine_properties_witness :
    entry (simMatrix [[(1:ℝ), 0], [0, 0]]) 0 0 = 1 ∧
    entry (simMatrix [[(1:ℝ), 0], [0, 0]]) 1 0 = 0 ∧
    entry (simMatrix [[(1:ℝ), 0], [0, 0]]) 1 1 = 0 := by
  have hlen : ∀ v ∈ [[(1:ℝ), 0], [0, 0]], v.length = 2 := by
    intro v hv
    fin_cases hv <;> rfl
  have hnz : norm2 (([[(1:ℝ), 0], [0, 0]]).getD 0 []) ≠ 0 := by
    show norm2 [(1:ℝ), 0] ≠ 0
    have h1 : norm2 [(1:ℝ), 0] = 1 := by
      unfold norm2 dotList
      norm_num
    rw [h1]
    norm_num
  have hz : norm2 (([[(1:ℝ), 0], [0, 0]]).getD 1 []) = 0 := by
    show norm2 [(0:ℝ), 0] = 0
    unfold norm2 dotList
    norm_num
  refine ⟨(C5_cosine_properties [[(1:ℝ), 0], [0, 0]] 2 hlen _ rfl 0 0
      (by norm_num) (by norm_num)).2.1 hnz,
    ((C5_cosine_properties [[(1:ℝ), 0], [0, 0]] 2 hlen _ rfl 1 0
      (by norm_num) (by norm_num)).2.2 hz).1,
    ((C5_cosine_properties [[(1:ℝ), 0], [0, 0]] 2 hlen _ rfl 1 1
      (by norm_num) (by norm_num)).2.2 hz).1⟩

/-! ## Method comparison (analysis_pipeline.compare_methods_accuracy)

The `grants_df` argument of the Python function is not read by the metric
computation and is omitted.  `regular_results.sum(axis=1).mean()` on an
empty table is pandas `NaN`; it is modelled as the rational 0 produced by
division by zero, a case no claim touches.  `scibert_sims.max()` on an
empty array raises `ValueError`, which the model surfaces as the error
case; `(scibert_sims > 0.8).sum()` counts every matrix entry strictly
greater than 0.8. -/

/-- Total number of `True` cells of the classification table
(`regular_results.sum().sum()`). -/
def tableTrueCount (tbl : List (String × List Bool)) : ℕ :=
  (tbl.map (fun c => c.2.countP id)).sum

/-- Number of rows of the classification table (every column built by
`process_regular_method` has one entry per record). -/
def tableRowCount (tbl : List (String × List Bool)) : ℕ :=
  match tbl with
  | [] => 0
  | c :: _ => c.2.length

/-- Count of similarity-matrix entries strictly above the 0.8 threshold:
`(scibert_sims > 0.8).sum()`. -/
noncomputable def countHigh (M : List (List ℝ)) : ℕ :=
  (M.map (fun row => row.countP (fun x => decide ((0.8:ℝ) < x)))).sum

/-- Count of unordered pairs of distinct positions related by a boolean
relation. -/
def pairCountP (p : List ℝ → List ℝ → Bool) : List (List ℝ) → ℕ
  | [] => 0
  | a :: rest => rest.countP (p a) + pairCountP p rest

/-- Count of unordered pairs of distinct row positions whose cosine
similarity exceeds the 0.8 threshold. -/
noncomputable def highPairs (vs : List (List ℝ)) : ℕ :=
  pairCountP (fun a b => decide ((0.8:ℝ) < cosSim a b)) vs

/-- The scalar metrics gathered into the comparison row. -/
structure ComparisonSummary where
  Total_Categories : ℕ
  Average_Categories_Per_Grant : ℚ
  Total_Positive_Classifications : ℕ
  High_Similarity_Pairs : ℕ
  Average_Similarity : ℝ
  Max_Similarity : ℝ

/-- `compare_methods_accuracy`: the regular-method metrics are column count,
mean per-row true count and total true count; the SciBERT metrics are the
high-similarity entry count, matrix mean and matrix max — the last raising
on an empty matrix. -/
noncomputable def compare_methods_accuracy
    (regular_results : List (String × List Bool))
    (scibert_sims : List (List ℝ)) : Except String ComparisonSummary :=
  match scibert_sims.flatMap id with
  | [] =>
    .error "zero-size array to reduction operation maximum which has no identity"
  | x :: xs =>
    .ok { Total_Categories := regular_results.length
          Average_Categories_Per_Grant :=
            (tableTrueCount regular_results : ℚ) /
              (tableRowCount regular_results : ℚ)
          Total_Positive_Classifications := tableTrueCount regular_results
          High_Similarity_Pairs := countHigh scibert_sims
          Average_Similarity := (x + xs.sum) / ((1 + xs.length : ℕ) : ℝ)
          Max_Similarity := xs.foldl max x }

lemma sum_map_add_nat {α : Type} (T : List α) (g h : α → ℕ) :
    (T.map (fun x => g x + h x)).sum = (T.map g).sum + (T.map h).sum := by
  induction T with
  | nil => simp
  | cons a t ih => simp [ih]; omega

lemma sum_map_ite_nat {α : Type} (T : List α) (p : α → Bool) :
    (T.map (fun x => if p x then 1 else 0)).sum = T.countP p := by
  induction T with
  | nil => simp
  | cons a t ih =>
    by_cases hpa : p a = true
    · simp [List.countP_cons, hpa, ih]
      omega
    · simp only [Bool.not_eq_true] at hpa
      simp [List.countP_cons, hpa, ih]

/-- Double count over a symmetric reflexive-on-members boolean relation:
diagonal entries plus both orientations of each unordered pair. -/
lemma sum_countP_of_symm (p : List ℝ → List ℝ → Bool)
    (hsymm : ∀ a b, p a b = p b a) :
    ∀ S : List (List ℝ), (∀ a ∈ S, p a a = true) →
      (S.map (fun a => S.countP (p a))).sum =
        S.length + 2 * (pairCountP p S) := by
  intro S
  induction S with
  | nil => intro _; simp [pairCountP]
  | cons a T ih =>
    intro hdiag
    have hdiag_a : p a a = true := hdiag a (List.mem_cons_self _ _)
    have hdiag_T : ∀ x ∈ T, p x x = true := fun x hx =>
      hdiag x (List.mem_cons_of_mem _ hx)
    have hcount_a : (a :: T).countP (p a) = T.countP (p a) + 1 := by
      simp [List.countP_cons, hdiag_a]
    have hcount_x : ∀ x : List ℝ, (a :: T).countP (p x) =
        T.countP (p x) + (if p x a then 1 else 0) := by
      intro x
      simp [List.countP_cons]
    calc ((a :: T).map (fun y => (a :: T).countP (p y))).sum
        = (a :: T).countP (p a) +
            (T.map (fun y => (a :: T).countP (p y))).sum := by
          simp
      _ = (T.countP (p a) + 1) +
            (T.map (fun y => T.countP (p y) + (if p y a then 1 else 0))).sum := by
          rw [hcount_a]
          congr 1
          exact congrArg List.sum (List.map_congr_left (fun y _ => hcount_x y))
      _ = (T.countP (p a) + 1) +
            ((T.map (fun y => T.countP (p y))).sum +
              (T.map (fun y => if p y a then 1 else 0)).sum) := by
          rw [sum_map_add_nat]
      _ = (T.countP (p a) + 1) +
            ((T.length + 2 * pairCountP p T) + T.countP (fun y => p y a)) := by
          rw [ih hdiag_T, sum_map_ite_nat]
      _ = (T.countP (p a) + 1) +
            ((T.length + 2 * pairCountP p T) + T.countP (p a)) := by
          congr 2
          exact List.countP_congr (fun y _ => by rw [hsymm y a])
      _ = (a :: T).length + 2 * pairCountP p (a :: T) := by
          simp [pairCountP]
          omega

lemma compare_ok_of_flat_ne_nil (tbl : List (String × List Bool))
    (M : List (List ℝ)) (h : M.flatMap id ≠ []) :
    ∃ c : ComparisonSummary, compare_methods_accuracy tbl M = .ok c ∧
      c.High_Similarity_Pairs = countHigh M := by
  unfold compare_methods_accuracy
  split
  · next heq => exact absurd heq h
  · next x xs heq => exact ⟨_, rfl, rfl⟩

lemma countHigh_simMatrix (vs : List (List ℝ)) :
    countHigh (simMatrix vs) =
      (vs.map (fun a =>
        vs.countP (fun b => decide ((0.8:ℝ) < cosSim a b)))).sum := by
  simp [countHigh, simMatrix, List.map_map, List.countP_map,
    Function.comp_def]

/-- C10.  `High_Similarity_Pairs` counts every entry of the full n×n
embedding similarity matrix strictly greater than 0.8: on a nonempty batch
of embeddings all of nonzero norm, the n diagonal self-similarities (each
exactly 1) are included, so the count is at least n, and the two
orientations of each unordered above-threshold pair contribute 2 each. -/
theorem C10_high_similarity_count (vs : List (List ℝ)) (hne : vs ≠ [])
    (hnorm : ∀ v ∈ vs, norm2 v ≠ 0)
    (M : List (List ℝ)) (hM : cosine_similarity vs = .ok M)
    (tbl : List (String × List Bool)) :
    ∃ c : ComparisonSummary,
      compare_methods_accuracy tbl M = .ok c ∧
      c.High_Similarity_Pairs = countHigh M ∧
      vs.length ≤ countHigh M ∧
      countHigh M = vs.length + 2 * highPairs vs := by
  have hMs := cosine_similarity_ok vs M hM
  subst hMs
  have hcount : countHigh (simMatrix vs) =
      vs.length + 2 * highPairs vs := by
    rw [countHigh_simMatrix]
    refine sum_countP_of_symm _ ?_ vs ?_
    · intro a b
      rw [cosSim_comm a b]
    · intro a ha
      rw [cosSim_self a (hnorm a ha)]
      exact decide_eq_true (by norm_num)
  have hflat : (simMatrix vs).flatMap id ≠ [] := by
    cases vs with
    | nil => exact absurd rfl hne
    | cons a rest => simp [simMatrix]
  obtain ⟨c, hc, hcpairs⟩ := compare_ok_of_flat_ne_nil tbl (simMatrix vs) hflat
  exact ⟨c, hc, hcpairs, by omega, hcount⟩

/-- C10 witness: a single unit-norm embedding `[1]` yields a 1×1 similarity
matrix whose sole (diagonal) entry exceeds 0.8, so the comparison row
reports one high-similarity pair: 1 = n + 2·0. -/
theorem C10_high_similarity_count_witness :
    ∃ c : ComparisonSummary,
      compare_methods_accuracy [] (simMatrix [[(1:ℝ)]]) = .ok c ∧
      c.High_Similarity_Pairs = countHigh (simMatrix [[(1:ℝ)]]) ∧
      1 ≤ countHigh (simMatrix [[(1:ℝ)]]) ∧
      countHigh (simMatrix [[(1:ℝ)]]) = 1 + 2 * highPairs [[(1:ℝ)]] := by
  have hnorm : ∀ v ∈ [[(1:ℝ)]], norm2 v ≠ 0 := by
    intro v hv
    fin_cases hv
    show norm2 [(1:ℝ)] ≠ 0
    unfold norm2 dotList
    norm_num
  exact C10_high_similarity_count [[(1:ℝ)]] (by simp) hnorm _ rfl []

/-! ## Pipeline similarity entry point
(analysis_pipeline.calculate_similarities) -/

/-- `regular_results.select_dtypes(include=['bool','int64']).values`: the
row vectors of the classification table, booleans as 0/1.  All columns
built by `process_regular_method` have one entry per record, so the row
count is the length of the first column. -/
def boolVectors (tbl : List (String × List Bool)) : List (List ℝ) :=
  (List.range (tableRowCount tbl)).map
    (fun i => tbl.map (fun c => if c.2.getD i false then (1:ℝ) else 0))

/-- `calculate_similarities`: cosine similarity of the classification rows
and of the SciBERT embeddings; either sklearn call may raise. -/
noncomputable def calculate_similarities
    (regular_results : List (String × List Bool))
    (scibert_embeddings : List (List ℝ)) :
    Except String (List (List ℝ) × List (List ℝ)) := do
  let r ← cosine_similarity (boolVectors regular_results)
  let s ← cosine_similarity scibert_embeddings
  return (r, s)

/-! ## Geographic aggregation
(analysis_pipeline.create_geographic_analysis)

The embedding covers the funding-related output of the groupby/agg block —
group record count, the award-amount group sum (rounded to two decimals of
a dollar by `.round(2)`, then divided by 1e6) and `Funding_Percentage` —
together with the per-research-area breakdown columns
(`grants_df[regular_results[col]].groupby('org_state').size()`).  Only the
mean and median output columns, which no claim reads, are left out.  pandas
`groupby` drops rows whose `org_state` is null and sorts the group keys;
the keys are kept here in first-appearance order, which the claims (sums
over all regions) cannot distinguish.  A null `award_amount` (`NaN`) is
skipped by both the group sums and the total, i.e. contributes 0.

The breakdown step is dtype-sensitive.  Over at least one record, each
`is_<area>` column produced by `process_regular_method` is a boolean Series
of full length and `grants_df[...]` keeps the rows where it is true.  Over
zero records, `DataFrame.apply` returns an empty float64 Series instead;
`grants_df[...]` is then column-label selection producing a zero-column
frame, and `.groupby('org_state')` raises `KeyError('org_state')`.  The
model accordingly treats an empty column as the raising indexer and a
nonempty column as a row mask. -/

/-- numpy/pandas `round` to an integer: round half to even. -/
def roundHalfEven (x : ℚ) : ℤ :=
  if x - ⌊x⌋ < 1/2 then ⌊x⌋
  else if 1/2 < x - ⌊x⌋ then ⌊x⌋ + 1
  else if 2 ∣ ⌊x⌋ then ⌊x⌋ else ⌊x⌋ + 1

/-- pandas `.round(2)`. -/
def round2 (x : ℚ) : ℚ := (roundHalfEven (x * 100) : ℚ) / 100

/-- Total award amount over a record list (`award_amount.sum()`; null
amounts are skipped). -/
def totalAward (records : List GrantRecord) : ℚ :=
  (records.map (fun r => r.award_amount.getD 0)).sum

/-- The rows of one `org_state` group. -/
def regionRecords (records : List GrantRecord) (s : String) :
    List GrantRecord :=
  records.filter (fun r => r.org_state == some s)

/-- The award-amount sum of one `org_state` group. -/
def regionSum (records : List GrantRecord) (s : String) : ℚ :=
  totalAward (regionRecords records s)

/-- The distinct non-null `org_state` values (the groupby keys). -/
def statesOf (records : List GrantRecord) : List String :=
  (records.filterMap (fun r => r.org_state)).dedup

/-- Python `str.replace(old, new)` on character lists: replace
non-overlapping occurrences left to right.  Every call site passes a
nonempty pattern; an empty pattern leaves the text unchanged here. -/
def pyReplaceChars (old new : List Char) : List Char → List Char
  | [] => []
  | c :: rest =>
    if !old.isEmpty && strStarts old (c :: rest) then
      new ++ pyReplaceChars old new (rest.drop (old.length - 1))
    else
      c :: pyReplaceChars old new rest
termination_by s => s.length
decreasing_by
  · simp only [List.length_cons, List.length_drop]
    omega
  · simp only [List.length_cons]
    omega

/-- Python `str.replace(old, new)`. -/
def pyReplace (s old new : String) : String :=
  ⟨pyReplaceChars old.data new.data s.data⟩

/-- Python `str.title()` body: the first letter of each run of letters is
uppercased and the following letters lowercased. -/
def pyTitleChars : Bool → List Char → List Char
  | _, [] => []
  | prevAlpha, c :: rest =>
    if c.isAlpha then
      (if prevAlpha then c.toLower else c.toUpper) :: pyTitleChars true rest
    else
      c :: pyTitleChars false rest

/-- Python `str.title()`. -/
def pyTitle (s : String) : String := ⟨pyTitleChars false s.data⟩

/-- `clean_category_name`: drop every `is_` / `uses_` / `study_design_`
occurrence, turn underscores into spaces and title-case the result. -/
def clean_category_name (name : String) : String :=
  pyTitle (pyReplace (pyReplace (pyReplace (pyReplace name "is_" "")
    "uses_" "") "study_design_" "") "_" " ")

/-- `grants_df[mask]` for a nonempty boolean column: the records at the
positions where the mask is true. -/
def maskedRecords (records : List GrantRecord) (mask : List Bool) :
    List GrantRecord :=
  (records.zip mask).filterMap (fun p => if p.2 then some p.1 else none)

/-- The per-area breakdown loop of `create_geographic_analysis`: for each
research area whose `is_<area>` column exists in the classification table,
select the records where the column is true.  An empty column is the pandas
empty float64 Series: `grants_df[...]` then keeps zero columns and the
subsequent `.groupby('org_state')` raises `KeyError('org_state')`, aborting
the run. -/
def breakdownMasks (records : List GrantRecord)
    (tbl : List (String × List Bool)) :
    List (String × AreaDetails) →
      Except String (List (String × List GrantRecord))
  | [] => .ok []
  | (area, _) :: rest =>
    match List.lookup ("is_" ++ area) tbl with
    | none => breakdownMasks records tbl rest
    | some mask =>
      if mask.isEmpty then .error "org_state"
      else
        match breakdownMasks records tbl rest with
        | .error e => .error e
        | .ok others => .ok ((area, maskedRecords records mask) :: others)

/-- The funding-related columns of one `State_Analysis` row together with
the per-area `<cleaned area>_Grants` breakdown entries (pandas leaves `NaN`
— here `none` — for a region with no matching records). -/
structure StateRow where
  grant_count : ℕ
  award_sum_millions : ℚ
  funding_percentage : ℚ
  area_grants : List (String × Option ℕ)

/-- One output row of the geographic analysis for region `s`. -/
def geoStateRow (records : List GrantRecord)
    (masks : List (String × List GrantRecord)) (s : String) : StateRow :=
  { grant_count := (regionRecords records s).length
    award_sum_millions := round2 (regionSum records s) / 1000000
    funding_percentage :=
      round2 (round2 (regionSum records s) / 1000000 * 1000000 /
        totalAward records * 100)
    area_grants := masks.map (fun m =>
      (clean_category_name m.1 ++ "_Grants",
        if (regionRecords m.2 s).length = 0 then none
        else some (regionRecords m.2 s).length)) }

/-- `create_geographic_analysis`: group by `org_state`; aggregate the count
and the rounded award sum, convert the sum to millions, attach the per-area
breakdown columns, and compute each region's rounded share of total funding
(`sum_millions * 1e6 / total_funding * 100`, rounded to two decimals).  The
breakdown loop aborts with `KeyError('org_state')` when it indexes with an
empty — hence non-boolean — classification column. -/
def create_geographic_analysis (cfg : GrantConfig)
    (records : List GrantRecord)
    (regular_results : List (String × List Bool)) :
    Except String (List (String × StateRow)) :=
  match breakdownMasks records regular_results cfg.Research_Areas with
  | .error e => .error e
  | .ok masks =>
    .ok ((statesOf records).map (fun s => (s, geoStateRow records masks s)))

/-! ## C3: the empty record set -/

lemma mem_assignCol {q : String × List Bool}
    (tbl : List (String × List Bool)) (name : String) (col : List Bool)
    (hq : q ∈ assignCol tbl name col) : q ∈ tbl ∨ q = (name, col) := by
  unfold assignCol at hq
  split at hq
  · obtain ⟨p, hp, hpq⟩ := List.mem_map.mp hq
    by_cases hcase : (p.1 == name) = true
    · right
      rw [if_pos hcase] at hpq
      have hname : p.1 = name := by simpa using hcase
      rw [← hpq, hname]
    · left
      rw [if_neg hcase] at hpq
      rw [← hpq]
      exact hp
  · rcases List.mem_append.mp hq with h | h
    · exact Or.inl h
    · right
      simpa using h

lemma mem_foldl_assignCol {q : String × List Bool} :
    ∀ (specs : List (String × List Bool))
      (acc : List (String × List Bool)),
      q ∈ specs.foldl (fun t nc => assignCol t nc.1 nc.2) acc →
      q ∈ acc ∨ q ∈ specs := by
  intro specs
  induction specs with
  | nil => intro acc hq; exact Or.inl hq
  | cons nc rest ih =>
    intro acc hq
    rcases ih (assignCol acc nc.1 nc.2) hq with h | h
    · rcases mem_assignCol acc nc.1 nc.2 h with h2 | h2
      · exact Or.inl h2
      · right
        rw [h2]
        exact List.mem_cons_self _ _
    · exact Or.inr (List.mem_cons_of_mem _ h)

/-- Every column built by `process_regular_method` has one entry per
record. -/
lemma columnSpecs_value_length (cfg : GrantConfig)
    (records : List GrantRecord)
    {q : String × List Bool} (hq : q ∈ columnSpecs cfg records) :
    q.2.length = records.length := by
  unfold columnSpecs at hq
  rcases List.mem_append.mp hq with h1 | h3
  · rcases List.mem_append.mp h1 with hA | hB
    · obtain ⟨a, _, hcons⟩ := List.mem_flatMap.mp hA
      rcases List.mem_cons.mp hcons with hhead | htail
      · rw [hhead]
        simp [areaColumn]
      · obtain ⟨st, _, hst⟩ := List.mem_map.mp htail
        rw [← hst]
        simp [subtypeColumn]
    · obtain ⟨p, _, hp⟩ := List.mem_map.mp hB
      rw [← hp]
      simp [abstractColumn]
  · obtain ⟨dt, _, hmap⟩ := List.mem_flatMap.mp h3
    obtain ⟨st, _, hst⟩ := List.mem_map.mp hmap
    rw [← hst]
    simp [abstractColumn]

lemma process_value_length (cfg : GrantConfig) (records : List GrantRecord)
    {q : String × List Bool} (hq : q ∈ process_regular_method cfg records) :
    q.2.length = records.length := by
  unfold process_regular_method at hq
  rcases mem_foldl_assignCol (columnSpecs cfg records) [] hq with h | h
  · cases h
  · exact columnSpecs_value_length cfg records h

lemma process_empty_records (cfg : GrantConfig)
    {q : String × List Bool} (hq : q ∈ process_regular_method cfg []) :
    q.2 = ([] : List Bool) :=
  List.length_eq_zero.mp (process_value_length cfg [] hq)

/-- Overwriting or appending a column keeps every existing column name. -/
lemma mem_keys_assignCol {name : String} (tbl : List (String × List Bool))
    (n : String) (c : List Bool) (h : name ∈ tbl.map Prod.fst) :
    name ∈ (assignCol tbl n c).map Prod.fst := by
  unfold assignCol
  split
  · have hkeys : (tbl.map (fun p => if p.1 == n then (p.1, c) else p)).map
        Prod.fst = tbl.map Prod.fst := by
      rw [List.map_map]
      apply List.map_congr_left
      intro p _
      by_cases hp : p.1 = n
      · simp [hp]
      · simp [hp]
    rw [hkeys]
    exact h
  · rw [List.map_append]
    exact List.mem_append_left _ h

/-- The assigned name itself is a column name afterwards. -/
lemma self_mem_keys_assignCol (tbl : List (String × List Bool))
    (n : String) (c : List Bool) :
    n ∈ (assignCol tbl n c).map Prod.fst := by
  unfold assignCol
  split
  · next hany =>
    obtain ⟨p, hp, hbeq⟩ := List.any_eq_true.mp hany
    have hpn : p.1 = n := by simpa using hbeq
    have hkeys : (tbl.map (fun p => if p.1 == n then (p.1, c) else p)).map
        Prod.fst = tbl.map Prod.fst := by
      rw [List.map_map]
      apply List.map_congr_left
      intro q _
      by_cases hq : q.1 = n
      · simp [hq]
      · simp [hq]
    rw [hkeys, ← hpn]
    exact List.mem_map_of_mem Prod.fst hp
  · rw [List.map_append]
    refine List.mem_append_right _ ?_
    simp

/-- Every name assigned by the fold is a column name of the result. -/
lemma mem_keys_foldl (specs : List (String × List Bool)) :
    ∀ (acc : List (String × List Bool)) (name : String),
      (name ∈ acc.map Prod.fst ∨ name ∈ specs.map Prod.fst) →
      name ∈ ((specs.foldl (fun t nc => assignCol t nc.1 nc.2) acc).map
        Prod.fst) := by
  induction specs with
  | nil =>
    intro acc name h
    rcases h with h | h
    · exact h
    · cases h
  | cons nc rest ih =>
    intro acc name h
    apply ih (assignCol acc nc.1 nc.2) name
    rcases h with h | h
    · exact Or.inl (mem_keys_assignCol acc nc.1 nc.2 h)
    · rw [List.map_cons] at h
      rcases List.mem_cons.mp h with hcase | hcase
      · rw [hcase]
        exact Or.inl (self_mem_keys_assignCol acc nc.1 nc.2)
      · exact Or.inr hcase

lemma lookup_eq_some_of_mem_keys {β : Type} (a : String) :
    ∀ l : List (String × β), a ∈ l.map Prod.fst →
      ∃ b, List.lookup a l = some b := by
  intro l
  induction l with
  | nil => intro h; cases h
  | cons p rest ih =>
    intro h
    obtain ⟨k, v⟩ := p
    by_cases hbeq : (a == k) = true
    · refine ⟨v, ?_⟩
      simp only [List.lookup]
      rw [hbeq]
    · have hrest : a ∈ rest.map Prod.fst := by
        rw [List.map_cons] at h
        rcases List.mem_cons.mp h with hcase | hcase
        · exact absurd (by simp [hcase] : (a == k) = true) hbeq
        · exact hcase
      obtain ⟨b, hb⟩ := ih hrest
      refine ⟨b, ?_⟩
      simp only [Bool.not_eq_true] at hbeq
      simp only [List.lookup]
      rw [hbeq]
      exact hb

lemma lookup_mem {β : Type} (a : String) (b : β) :
    ∀ l : List (String × β), List.lookup a l = some b → (a, b) ∈ l := by
  intro l
  induction l with
  | nil => intro h; simp [List.lookup] at h
  | cons p rest ih =>
    intro h
    obtain ⟨k, v⟩ := p
    by_cases hbeq : (a == k) = true
    · have hak : a = k := by simpa using hbeq
      simp only [List.lookup] at h
      rw [hbeq] at h
      have hvb : v = b := by simpa using h
      rw [hak, hvb]
      exact List.mem_cons_self _ _
    · simp only [Bool.not_eq_true] at hbeq
      simp only [List.lookup] at h
      rw [hbeq] at h
      exact List.mem_cons_of_mem _ (ih h)

lemma tableRowCount_process_empty (cfg : GrantConfig) :
    tableRowCount (process_regular_method cfg []) = 0 := by
  cases hp : process_regular_method cfg [] with
  | nil => rfl
  | cons c rest =>
    have hc : c.2 = ([] : List Bool) :=
      process_empty_records cfg (hp ▸ List.mem_cons_self c rest)
    simp [tableRowCount, hc]

/-- Indexing with an empty classification column raises at the head of the
breakdown loop. -/
lemma breakdownMasks_error_head (records : List GrantRecord)
    (tbl : List (String × List Bool)) (area : String) (d : AreaDetails)
    (rest : List (String × AreaDetails))
    (hlk : List.lookup ("is_" ++ area) tbl = some []) :
    breakdownMasks records tbl ((area, d) :: rest) = .error "org_state" := by
  simp [breakdownMasks, hlk]

/-- When every column of the table that the loop looks up is nonempty, the
breakdown loop succeeds. -/
lemma breakdownMasks_ok (records : List GrantRecord)
    (tbl : List (String × List Bool))
    (h : ∀ name mask, List.lookup name tbl = some mask → mask ≠ []) :
    ∀ areas : List (String × AreaDetails),
      ∃ ms, breakdownMasks records tbl areas = .ok ms := by
  intro areas
  induction areas with
  | nil => exact ⟨[], rfl⟩
  | cons a rest ih =>
    obtain ⟨ms, hms⟩ := ih
    obtain ⟨area, d⟩ := a
    cases hlk : List.lookup ("is_" ++ area) tbl with
    | none => exact ⟨ms, by simp [breakdownMasks, hlk, hms]⟩
    | some mask =>
      have hne : mask ≠ [] := h _ _ hlk
      have hemp : mask.isEmpty = false := by
        cases mask with
        | nil => exact absurd rfl hne
        | cons x xs => rfl
      exact ⟨(area, maskedRecords records mask) :: ms,
        by simp [breakdownMasks, hlk, hemp, hms]⟩

/-- C3 counterexample.  On the empty record set, geographic aggregation,
similarity computation and method comparison all raise rather than
returning empty outputs: the per-area breakdown indexes with the empty
(non-boolean) `is_Genetics` column and its groupby raises
`KeyError('org_state')`, sklearn's `cosine_similarity` rejects the 0-row
classification matrix, and `scibert_sims.max()` fails on the empty
similarity matrix. -/
theorem C3_counterexample :
    create_geographic_analysis cfgBio [] (process_regular_method cfgBio []) =
      .error "org_state" ∧
    calculate_similarities (process_regular_method cfgBio []) [] =
      .error "Found array with 0 sample(s)" ∧
    compare_methods_accuracy (process_regular_method cfgBio []) [] =
      .error
        "zero-size array to reduction operation maximum which has no identity" :=
  ⟨rfl, rfl, rfl⟩

/-- C3 (amended).  On the empty record set, keyword classification returns
an empty table without error (every classification column is empty), and
geographic aggregation returns an empty table only when the taxonomy
declares no research areas; with at least one research area its breakdown
loop indexes with an empty non-boolean column and raises
`KeyError('org_state')`.  Similarity computation raises (sklearn rejects
arrays with zero samples) and method comparison raises (the maximum of the
empty similarity matrix is undefined). -/
theorem C3_empty_record_set (cfg : GrantConfig)
    (tbl : List (String × List Bool)) :
    (∀ p ∈ process_regular_method cfg [], p.2 = ([] : List Bool)) ∧
    (cfg.Research_Areas = [] →
      create_geographic_analysis cfg [] (process_regular_method cfg []) =
        .ok []) ∧
    (cfg.Research_Areas ≠ [] →
      create_geographic_analysis cfg [] (process_regular_method cfg []) =
        .error "org_state") ∧
    calculate_similarities (process_regular_method cfg []) [] =
      .error "Found array with 0 sample(s)" ∧
    compare_methods_accuracy tbl [] =
      .error
        "zero-size array to reduction operation maximum which has no identity" := by
  refine ⟨fun p hp => process_empty_records cfg hp, ?_, ?_, ?_, rfl⟩
  · intro hnil
    unfold create_geographic_analysis
    rw [hnil]
    rfl
  · intro hne
    cases harea : cfg.Research_Areas with
    | nil => exact absurd harea hne
    | cons a rest =>
      obtain ⟨area, d⟩ := a
      have hkey : "is_" ++ area ∈
          (process_regular_method cfg []).map Prod.fst := by
        unfold process_regular_method
        apply mem_keys_foldl (columnSpecs cfg []) [] _ (Or.inr ?_)
        rw [columnSpecs_names]
        unfold get_all_category_columns
        refine List.mem_append_left _ (List.mem_append_left _ ?_)
        refine List.mem_flatMap.mpr ⟨(area, d), ?_, List.mem_cons_self _ _⟩
        rw [harea]
        exact List.mem_cons_self _ _
      obtain ⟨mask, hlk⟩ :=
        lookup_eq_some_of_mem_keys ("is_" ++ area) _ hkey
      have hmask : mask = [] := by
        have hmem := lookup_mem ("is_" ++ area) mask _ hlk
        simpa using process_empty_records cfg hmem
      unfold create_geographic_analysis
      rw [harea, breakdownMasks_error_head [] (process_regular_method cfg [])
        area d rest (hmask ▸ hlk)]
  · have hbv : boolVectors (process_regular_method cfg []) = [] := by
      simp [boolVectors, tableRowCount_process_empty]
    unfold calculate_similarities
    rw [hbv]
    rfl

/-- C3 witness: the amended statement applied at the biomedical
configuration fragment (one research area) with an empty comparison
table. -/
theorem C3_empty_record_set_witness :
    create_geographic_analysis cfgBio [] (process_regular_method cfgBio []) =
      .error "org_state" ∧
    calculate_similarities (process_regular_method cfgBio []) [] =
      .error "Found array with 0 sample(s)" ∧
    compare_methods_accuracy [] [] =
      .error
        "zero-size array to reduction operation maximum which has no identity" :=
  ⟨(C3_empty_record_set cfgBio []).2.2.1 (by simp [cfgBio]),
   (C3_empty_record_set cfgBio []).2.2.2.1,
   (C3_empty_record_set cfgBio []).2.2.2.2⟩

/-! ## Rounding and summation lemmas for the geographic aggregation -/

lemma roundHalfEven_sub_abs_le (y : ℚ) : |(roundHalfEven y : ℚ) - y| ≤ 1/2 := by
  have hfl : (⌊y⌋ : ℚ) ≤ y := Int.floor_le y
  have hfl2 : y < ⌊y⌋ + 1 := Int.lt_floor_add_one y
  unfold roundHalfEven
  split_ifs with h1 h2 h3
  · rw [abs_le]; constructor <;> linarith
  · rw [abs_le]; constructor <;> push_cast <;> linarith
  · rw [abs_le]; constructor <;> linarith
  · rw [abs_le]; constructor <;> push_cast <;> linarith

lemma round2_sub_abs_le (x : ℚ) : |round2 x - x| ≤ 1/200 := by
  unfold round2
  have h := roundHalfEven_sub_abs_le (x * 100)
  have hrw : (roundHalfEven (x * 100) : ℚ) / 100 - x =
      ((roundHalfEven (x * 100) : ℚ) - x * 100) / 100 := by ring
  rw [hrw, abs_div, abs_of_pos (show (0:ℚ) < 100 by norm_num)]
  rw [div_le_div_iff₀ (by norm_num) (by norm_num)]
  linarith

lemma round2_eq_of_cent (x : ℚ) (h : ∃ z : ℤ, x * 100 = z) :
    round2 x = x := by
  obtain ⟨z, hz⟩ := h
  unfold round2 roundHalfEven
  rw [hz, Int.floor_intCast]
  rw [if_pos (by norm_num)]
  rw [div_eq_iff (show (100:ℚ) ≠ 0 by norm_num)]
  linarith

lemma sum_map_sub_abs_le {α : Type} (l : List α) (f g : α → ℚ) (ε : ℚ)
    (h : ∀ x ∈ l, |f x - g x| ≤ ε) :
    |(l.map f).sum - (l.map g).sum| ≤ l.length * ε := by
  induction l with
  | nil => simp
  | cons a t ih =>
    have ha := h a (List.mem_cons_self _ _)
    have ht := ih (fun x hx => h x (List.mem_cons_of_mem _ hx))
    have hsplit : (f a + (t.map f).sum) - (g a + (t.map g).sum) =
        (f a - g a) + ((t.map f).sum - (t.map g).sum) := by ring
    calc |((a :: t).map f).sum - ((a :: t).map g).sum|
        = |(f a - g a) + ((t.map f).sum - (t.map g).sum)| := by
          simp [hsplit]
      _ ≤ |f a - g a| + |(t.map f).sum - (t.map g).sum| := abs_add _ _
      _ ≤ ε + t.length * ε := add_le_add ha ht
      _ = (a :: t).length * ε := by
          simp [List.length_cons]
          ring

lemma sum_map_mul_const {α : Type} (l : List α) (f : α → ℚ) (c : ℚ) :
    (l.map (fun x => f x * c)).sum = (l.map f).sum * c := by
  induction l with
  | nil => simp
  | cons a t ih => simp [ih]; ring

lemma exists_int_mul_sum (l : List ℚ) (h : ∀ x ∈ l, ∃ z : ℤ, x * 100 = z) :
    ∃ z : ℤ, l.sum * 100 = z := by
  induction l with
  | nil => exact ⟨0, by simp⟩
  | cons a t ih =>
    obtain ⟨z₁, hz₁⟩ := h a (List.mem_cons_self _ _)
    obtain ⟨z₂, hz₂⟩ := ih (fun x hx => h x (List.mem_cons_of_mem _ hx))
    refine ⟨z₁ + z₂, ?_⟩
    push_cast
    rw [List.sum_cons]
    linarith

lemma totalAward_filter_split (p : GrantRecord → Bool)
    (l : List GrantRecord) :
    totalAward (l.filter p) + totalAward (l.filter (fun r => !p r)) =
      totalAward l := by
  induction l with
  | nil => simp [totalAward]
  | cons r t ih =>
    by_cases hp : p r = true
    · simp only [totalAward] at ih ⊢
      simp [List.filter_cons, hp]
      linarith
    · simp only [Bool.not_eq_true] at hp
      simp only [totalAward] at ih ⊢
      simp [List.filter_cons, hp]
      linarith

/-- Summing the per-region funding over a duplicate-free list of states that
covers every record reproduces the total funding. -/
lemma region_cover_sum :
    ∀ states : List String, states.Nodup →
    ∀ l : List GrantRecord,
      (∀ r ∈ l, ∃ s ∈ states, r.org_state = some s) →
      (states.map (fun s => regionSum l s)).sum = totalAward l := by
  intro states
  induction states with
  | nil =>
    intro _ l hcov
    have hl : l = [] := by
      cases l with
      | nil => rfl
      | cons r t =>
        obtain ⟨s, hs, _⟩ := hcov r (List.mem_cons_self r t)
        cases hs
    rw [hl]
    simp [totalAward]
  | cons s rest ih =>
    intro hnd l hcov
    have hnd' := List.nodup_cons.mp hnd
    have hrest : ∀ s₂ ∈ rest, regionSum l s₂ =
        regionSum (l.filter (fun r => !(r.org_state == some s))) s₂ := by
      intro s₂ hs₂
      have hneq : s₂ ≠ s := fun hc => hnd'.1 (hc ▸ hs₂)
      unfold regionSum regionRecords
      rw [List.filter_filter]
      congr 1
      apply List.filter_congr
      intro r _
      by_cases h2 : (r.org_state == some s₂) = true
      · have horg : r.org_state = some s₂ := by simpa using h2
        have hno : (r.org_state == some s) = false := by
          simp [horg, hneq]
        rw [h2, hno]
        rfl
      · simp only [Bool.not_eq_true] at h2
        rw [h2]
        rfl
    have hcov₂ : ∀ r ∈ l.filter (fun r => !(r.org_state == some s)),
        ∃ s₂ ∈ rest, r.org_state = some s₂ := by
      intro r hr
      have hrl : r ∈ l := (List.mem_filter.mp hr).1
      have hflt : (!(r.org_state == some s)) = true := (List.mem_filter.mp hr).2
      obtain ⟨s₂, hs₂, horg⟩ := hcov r hrl
      rcases List.mem_cons.mp hs₂ with hcase | hcase
      · exfalso
        rw [hcase] at horg
        simp [horg] at hflt
      · exact ⟨s₂, hcase, horg⟩
    calc ((s :: rest).map (fun x => regionSum l x)).sum
        = regionSum l s + (rest.map (fun x => regionSum l x)).sum := by
          simp
      _ = regionSum l s +
            (rest.map (fun x =>
              regionSum (l.filter (fun r => !(r.org_state == some s))) x)).sum := by
          congr 1
          exact congrArg List.sum (List.map_congr_left hrest)
      _ = regionSum l s +
            totalAward (l.filter (fun r => !(r.org_state == some s))) := by
          rw [ih hnd'.2 _ hcov₂]
      _ = totalAward l := by
          have hsplit := totalAward_filter_split
            (fun r => r.org_state == some s) l
          unfold regionSum regionRecords
          linarith

/-! ## C8: funding conservation in the geographic aggregation -/

/-- A record with a positive award amount but a null region code. -/
def recordNoRegion : GrantRecord := ⟨some "t", some "a", some 100, none⟩

/-- C8 counterexample.  On a record set whose single record has award 100
and a null `org_state`, `groupby` drops the record, the state table is
empty (`.ok []`), the per-region funding totals sum to 0 ≠ 100 and the
funding-share percentages sum to 0% rather than 100%. -/
theorem C8_counterexample :
    create_geographic_analysis cfgBio [recordNoRegion]
        (process_regular_method cfgBio [recordNoRegion]) = .ok [] ∧
    totalAward [recordNoRegion] = 100 :=
  ⟨rfl, by norm_num [totalAward, recordNoRegion]⟩

/-- C8 (amended).  Provided every record carries a non-null region code and
the total funding is positive, the aggregation succeeds (the breakdown loop
masks with nonempty boolean columns), and: the per-region funding totals
(which the code stores rounded to two decimals of a dollar, in millions)
sum to the total award amount of all records within 0.005 per region —
exactly, whenever all award amounts are whole cents — and the rounded
funding-share percentages sum to 100% up to the two-decimal rounding
tolerance (0.005·n + n/(2·total)). -/
theorem C8_funding_conservation (cfg : GrantConfig)
    (records : List GrantRecord)
    (hreg : ∀ r ∈ records, r.org_state ≠ none)
    (hT : 0 < totalAward records) :
    ∃ geo, create_geographic_analysis cfg records
        (process_regular_method cfg records) = .ok geo ∧
      |(geo.map (fun p => p.2.award_sum_millions * 1000000)).sum -
          totalAward records| ≤ (geo.length : ℚ) / 200 ∧
      ((∀ r ∈ records, ∃ z : ℤ, r.award_amount.getD 0 * 100 = z) →
        (geo.map (fun p => p.2.award_sum_millions * 1000000)).sum =
          totalAward records) ∧
      |(geo.map (fun p => p.2.funding_percentage)).sum - 100| ≤
        (geo.length : ℚ) / 200 +
          (geo.length : ℚ) / (2 * totalAward records) := by
  have hTne : totalAward records ≠ 0 := ne_of_gt hT
  have hrecne : records ≠ [] := by
    intro hnil
    rw [hnil] at hT
    norm_num [totalAward] at hT
  have hcolne : ∀ name mask,
      List.lookup name (process_regular_method cfg records) = some mask →
      mask ≠ [] := by
    intro name mask hlk hnil
    have hmem := lookup_mem name mask _ hlk
    have hlen := process_value_length cfg records hmem
    rw [hnil] at hlen
    exact hrecne (List.length_eq_zero.mp hlen.symm)
  obtain ⟨masks, hmasks⟩ :=
    breakdownMasks_ok records _ hcolne cfg.Research_Areas
  have hok : create_geographic_analysis cfg records
      (process_regular_method cfg records) =
      .ok ((statesOf records).map
        (fun s => (s, geoStateRow records masks s))) := by
    unfold create_geographic_analysis
    rw [hmasks]
  have hgeolen : ((statesOf records).map
      (fun s => (s, geoStateRow records masks s))).length =
      (statesOf records).length := by
    simp
  have hmap1 : ((statesOf records).map
      (fun s => (s, geoStateRow records masks s))).map
      (fun p => p.2.award_sum_millions * 1000000) =
      (statesOf records).map (fun s => round2 (regionSum records s)) := by
    rw [List.map_map]
    apply List.map_congr_left
    intro s _
    show round2 (regionSum records s) / 1000000 * 1000000 =
      round2 (regionSum records s)
    field_simp
  have hmap2 : ((statesOf records).map
      (fun s => (s, geoStateRow records masks s))).map
      (fun p => p.2.funding_percentage) =
      (statesOf records).map (fun s =>
        round2 (round2 (regionSum records s) / totalAward records * 100)) := by
    rw [List.map_map]
    apply List.map_congr_left
    intro s _
    show round2 (round2 (regionSum records s) / 1000000 * 1000000 /
        totalAward records * 100) = _
    rw [div_mul_cancel₀ _ (show (1000000:ℚ) ≠ 0 by norm_num)]
  have hcov : ∀ r ∈ records, ∃ s ∈ statesOf records,
      r.org_state = some s := by
    intro r hr
    cases horg : r.org_state with
    | none => exact absurd horg (hreg r hr)
    | some s =>
      refine ⟨s, ?_, rfl⟩
      unfold statesOf
      exact List.mem_dedup.mpr (List.mem_filterMap.mpr ⟨r, hr, horg⟩)
  have hpart : ((statesOf records).map
      (fun s => regionSum records s)).sum = totalAward records :=
    region_cover_sum (statesOf records) (List.nodup_dedup _) records hcov
  have hbound1 : |((statesOf records).map
      (fun s => round2 (regionSum records s))).sum - totalAward records| ≤
      ((statesOf records).length : ℚ) * (1/200) := by
    have := sum_map_sub_abs_le (statesOf records)
      (fun s => round2 (regionSum records s))
      (fun s => regionSum records s) (1/200)
      (fun s _ => round2_sub_abs_le _)
    rw [hpart] at this
    exact this
  refine ⟨(statesOf records).map (fun s => (s, geoStateRow records masks s)),
    hok, ?_, ?_, ?_⟩
  · rw [hmap1, hgeolen]
    calc |((statesOf records).map
        (fun s => round2 (regionSum records s))).sum - totalAward records|
        ≤ ((statesOf records).length : ℚ) * (1/200) := hbound1
      _ = ((statesOf records).length : ℚ) / 200 := by ring
  · intro hcents
    rw [hmap1]
    have hexact : ∀ s ∈ statesOf records,
        round2 (regionSum records s) = regionSum records s := by
      intro s _
      apply round2_eq_of_cent
      apply exists_int_mul_sum
      intro x hx
      obtain ⟨r, hrmem, hrx⟩ := List.mem_map.mp hx
      rw [← hrx]
      exact hcents r (List.mem_of_mem_filter hrmem)
    rw [List.map_congr_left hexact]
    exact hpart
  · rw [hmap2, hgeolen]
    have hstep : ∀ s : String,
        round2 (regionSum records s) / totalAward records * 100 =
        round2 (regionSum records s) * (100 / totalAward records) := by
      intro s
      ring
    have hu : ((statesOf records).map (fun s =>
        round2 (regionSum records s) / totalAward records * 100)).sum =
        ((statesOf records).map
          (fun s => round2 (regionSum records s))).sum *
          (100 / totalAward records) := by
      rw [List.map_congr_left (fun s _ => hstep s)]
      exact sum_map_mul_const _ _ _
    have hu100 : |((statesOf records).map (fun s =>
        round2 (regionSum records s) / totalAward records * 100)).sum -
          100| ≤ ((statesOf records).length : ℚ) / (2 * totalAward records) := by
      rw [hu]
      have hfactor : ((statesOf records).map
          (fun s => round2 (regionSum records s))).sum *
            (100 / totalAward records) - 100 =
          (((statesOf records).map
            (fun s => round2 (regionSum records s))).sum -
              totalAward records) * (100 / totalAward records) := by
        field_simp
        ring
      rw [hfactor, abs_mul,
        abs_of_pos (by positivity : (0:ℚ) < 100 / totalAward records)]
      calc |((statesOf records).map
          (fun s => round2 (regionSum records s))).sum -
            totalAward records| * (100 / totalAward records)
          ≤ (((statesOf records).length : ℚ) * (1/200)) *
              (100 / totalAward records) := by
            apply mul_le_mul_of_nonneg_right hbound1
            positivity
        _ = ((statesOf records).length : ℚ) / (2 * totalAward records) := by
            field_simp
            ring
    have hroundstep : |((statesOf records).map (fun s =>
        round2 (round2 (regionSum records s) / totalAward records * 100))).sum -
        ((statesOf records).map (fun s =>
          round2 (regionSum records s) / totalAward records * 100)).sum| ≤
        ((statesOf records).length : ℚ) * (1/200) :=
      sum_map_sub_abs_le (statesOf records) _ _ (1/200)
        (fun s _ => round2_sub_abs_le _)
    calc |((statesOf records).map (fun s =>
        round2 (round2 (regionSum records s) / totalAward records * 100))).sum -
          100|
        ≤ |((statesOf records).map (fun s =>
            round2 (round2 (regionSum records s) / totalAward records *
              100))).sum -
            ((statesOf records).map (fun s =>
              round2 (regionSum records s) / totalAward records * 100)).sum| +
          |((statesOf records).map (fun s =>
            round2 (regionSum records s) / totalAward records * 100)).sum -
            100| := abs_sub_le _ _ _
      _ ≤ ((statesOf records).length : ℚ) * (1/200) +
            ((statesOf records).length : ℚ) / (2 * totalAward records) :=
          add_le_add hroundstep hu100
      _ = ((statesOf records).length : ℚ) / 200 +
            ((statesOf records).length : ℚ) / (2 * totalAward records) := by
          ring

/-- A record with region `CA` and whole-dollar award 100. -/
def recordCA : GrantRecord := ⟨some "t", some "a", some 100, some "CA"⟩

/-- C8 witness: on the biomedical configuration fragment, a single record
with region `CA` and whole-dollar award 100 aggregates without error and
conserves funding exactly. -/
theorem C8_funding_conservation_witness :
    ∃ geo, create_geographic_analysis cfgBio [recordCA]
        (process_regular_method cfgBio [recordCA]) = .ok geo ∧
      (geo.map (fun p => p.2.award_sum_millions * 1000000)).sum =
        totalAward [recordCA] := by
  obtain ⟨geo, hok, _, hexact, _⟩ :=
    C8_funding_conservation cfgBio [recordCA]
      (by intro r hr; fin_cases hr; simp [recordCA])
      (by norm_num [totalAward, recordCA])
  exact ⟨geo, hok, hexact (by
    intro r hr
    fin_cases hr
    exact ⟨10000, by norm_num [recordCA]⟩)⟩

end NIH
